import Mathlib

/-!
Verification development for the Hyperforge repository: a shallow embedding
of the patch application engine (data model, parser, hunk matcher, apply
engine), of the apply-patch tool adapter, of the Google search backend's
parameter construction, and of the terminal chat client's history handling,
together with theorems settling the specification's claims about them.
-/

deriving instance DecidableEq for Except

namespace Hyperforge

/-! ## Data model of the patch engine -/

/-- Modelled from the spec: the `Hunk` record of the patch engine data
model (the engine module itself is not among the provided sources; only
its adapter is).  `contextBefore`/`contextAfter` anchor the hunk,
`removedLines` must appear verbatim after `contextBefore`, and
`addedLines` replace them. -/
structure Hunk where
  contextBefore : List String
  removedLines : List String
  addedLines : List String
  contextAfter : List String
deriving Repr, DecidableEq

/-- Modelled from the spec: the tagged `FileOperation` variant of the
engine's data model: add, update (with ordered hunks), delete. -/
inductive FileOperation where
  | addFile (path : String) (content : String)
  | updateFile (path : String) (hunks : List Hunk)
  | deleteFile (path : String)
deriving Repr, DecidableEq

/-- Modelled from the spec: a `Patch` is an ordered sequence of file
operations. -/
structure Patch where
  ops : List FileOperation
deriving Repr, DecidableEq

/-- The path named by a file operation. -/
def opPath : FileOperation → String
  | FileOperation.addFile p _ => p
  | FileOperation.updateFile p _ => p
  | FileOperation.deleteFile p => p

/-! ## String primitives

Kernel-computable counterparts of the string operations the sources use
(prefix test, character drop, split on a separator character), defined
over the underlying character lists. -/

/-- Whether `s` starts with `t`. -/
def strStartsWith (s t : String) : Bool :=
  t.data.isPrefixOf s.data

/-- Drop the first `n` characters of `s`. -/
def strDrop (s : String) (n : Nat) : String :=
  String.mk (s.data.drop n)

/-- Helper for `splitOnChar`, accumulating the current field in reverse. -/
def splitOnCharGo (c : Char) : List Char → List Char → List String
  | [], acc => [String.mk acc.reverse]
  | x :: rest, acc =>
    if x == c then String.mk acc.reverse :: splitOnCharGo c rest []
    else splitOnCharGo c rest (x :: acc)

/-- Split `s` at every occurrence of the separator character `c`; like
Python's `str.split(c)`, the result always has one more field than there
are separators. -/
def splitOnChar (c : Char) (s : String) : List String :=
  splitOnCharGo c s.data []

/-! ## Path confinement -/

/-- Modelled from the spec: walking the `/`-separated components of a
relative path, tracking the depth below the working-directory root; a
`..` component at depth zero escapes the root. -/
def pathDepthOk : List String → Nat → Bool
  | [], _ => true
  | c :: rest, d =>
    if c == ".." then
      match d with
      | 0 => false
      | Nat.succ d2 => pathDepthOk rest d2
    else if c == "" || c == "." then pathDepthOk rest d
    else pathDepthOk rest (d + 1)

/-- Modelled from the spec: a path is safe when it is not absolute and no
`..` component escapes the working-directory root. -/
def isPathSafe (p : String) : Bool :=
  !(strStartsWith p "/") && pathDepthOk (splitOnChar '/' p) 0

/-! ## Hunk matcher -/

/-- Modelled from the spec: hunk-location failures of the matcher. -/
inductive MatchErr where
  | contextNotFound (hunkIdx : Nat) (path : String)
  | ambiguousMatch (hunkIdx : Nat) (candidates : List Nat)
deriving Repr, DecidableEq

/-- The probe sequence of a hunk: its leading context followed by the
lines to be removed, expected verbatim in the unmodified file. -/
def hunkProbe (h : Hunk) : List String :=
  h.contextBefore ++ h.removedLines

/-- Whether `probe` occurs contiguously in `fl` at position `i`. -/
def probeAt (fl probe : List String) (i : Nat) : Bool :=
  (fl.drop i).take probe.length == probe

/-- All candidate positions at or after `start` where `probe` occurs
contiguously in `fl`. -/
def findMatches (fl probe : List String) (start : Nat) : List Nat :=
  (List.range (fl.length + 1)).filter
    (fun i => decide (start ≤ i) && probeAt fl probe i)

/-- Modelled from the spec: drop trailing whitespace from a line, the
normalisation used by the matcher's second pass. -/
def normLine (s : String) : String :=
  String.mk ((s.data.reverse.dropWhile Char.isWhitespace).reverse)

/-- Candidate positions under the trailing-whitespace-normalised
comparison. -/
def findMatchesNorm (fl probe : List String) (start : Nat) : List Nat :=
  findMatches (fl.map normLine) (probe.map normLine) start

/-- Modelled from the spec: `locate` scans for the probe from
`start` onward; a unique exact occurrence wins, otherwise a unique
normalised occurrence; zero candidates is `contextNotFound`, two or more
candidates in the pass consulted is `ambiguousMatch`. -/
def locate (fl : List String) (h : Hunk) (start hunkIdx : Nat)
    (path : String) : Except MatchErr (Nat × Nat) :=
  match findMatches fl (hunkProbe h) start with
  | [i] => Except.ok (i, i + (hunkProbe h).length)
  | [] =>
    match findMatchesNorm fl (hunkProbe h) start with
    | [i] => Except.ok (i, i + (hunkProbe h).length)
    | [] => Except.error (MatchErr.contextNotFound hunkIdx path)
    | cs => Except.error (MatchErr.ambiguousMatch hunkIdx cs)
  | cs => Except.error (MatchErr.ambiguousMatch hunkIdx cs)

/-- Modelled from the spec: match the hunks of one update in order, each
subsequent hunk's search start set to the end of the previous hunk's
matched range. -/
def matchHunks (fl : List String) (hunks : List Hunk) (start idx : Nat)
    (path : String) : Except MatchErr (List (Nat × Nat)) :=
  match hunks with
  | [] => Except.ok []
  | h :: rest =>
    match locate fl h start idx path with
    | Except.error e => Except.error e
    | Except.ok (i, j) =>
      match matchHunks fl rest j (idx + 1) path with
      | Except.error e => Except.error e
      | Except.ok rs => Except.ok ((i, j) :: rs)

/-- Modelled from the spec: rewrite the file lines, keeping everything
outside the matched ranges, keeping the file's own context lines inside
each range, and replacing each removed segment by the hunk's added
lines.  `pos` is the cursor into the original lines. -/
def rewriteAll (fl : List String) (pos : Nat) :
    List Hunk → List (Nat × Nat) → List String
  | [], _ => fl.drop pos
  | _, [] => fl.drop pos
  | h :: hs, (i, j) :: rs =>
    (fl.drop pos).take (i + h.contextBefore.length - pos) ++
      h.addedLines ++ rewriteAll fl j hs rs

/-- The forward-only, non-overlapping layout invariant on matched hunk
ranges: each range lies at or after the cursor, is well formed, and moves
the cursor to its end for the ranges that follow. -/
def rangesForwardFrom (start : Nat) : List (Nat × Nat) → Prop
  | [] => True
  | r :: rest => start ≤ r.1 ∧ r.1 ≤ r.2 ∧ rangesForwardFrom r.2 rest

/-! ## Patch parser -/

/-- Modelled from the spec: a parse error with line number and reason. -/
structure ParseError where
  line : Nat
  reason : String
deriving Repr, DecidableEq

/-- The literal header line of the patch envelope. -/
def beginMarker : String := "*** Begin Patch"

/-- The literal footer line of the patch envelope. -/
def endMarker : String := "*** End Patch"

/-- The directive line tag of an add operation. -/
def addTag : String := "*** Add File: "

/-- The directive line tag of an update operation. -/
def updateTag : String := "*** Update File: "

/-- The directive line tag of a delete operation. -/
def deleteTag : String := "*** Delete File: "

/-- A line at a directive position that starts a new operation. -/
def isDirectiveLine (l : String) : Bool := strStartsWith l "*** "

/-- Phase of the in-hunk state machine: leading context, inside the
removal and addition block, trailing context. -/
inductive HPhase where
  | leadCtx
  | change
  | trailCtx
deriving Repr, DecidableEq

/-- Assemble a hunk from the accumulators (held in reverse order). -/
def finishHunk (cb rem add ca : List String) : Hunk :=
  ⟨cb.reverse, rem.reverse, add.reverse, ca.reverse⟩

/-- Modelled from the spec: the line-prefix-driven hunk state machine of
an update body.  A space prefix is context (leading until a change is
seen, trailing afterwards), a minus is a removed line, a plus is an added
line; an unprefixed marker line ends the current hunk and starts a new
one; a change line after trailing context resumed is malformed. -/
def parseHunksGo : List String → Nat → HPhase →
    List String → List String → List String → List String →
    Except ParseError (List Hunk)
  | [], n, _, cb, rem, add, ca =>
    if rem.isEmpty && add.isEmpty then
      if cb.isEmpty && ca.isEmpty then Except.ok []
      else Except.error ⟨n, "hunk has no removed or added lines"⟩
    else Except.ok [finishHunk cb rem add ca]
  | s :: rest, n, ph, cb, rem, add, ca =>
    if strStartsWith s " " then
      match ph with
      | HPhase.leadCtx =>
        parseHunksGo rest (n + 1) HPhase.leadCtx ((strDrop s 1) :: cb) rem add ca
      | _ =>
        parseHunksGo rest (n + 1) HPhase.trailCtx cb rem add ((strDrop s 1) :: ca)
    else if strStartsWith s "-" then
      match ph with
      | HPhase.trailCtx =>
        Except.error ⟨n, "removal line after context resumed"⟩
      | _ =>
        parseHunksGo rest (n + 1) HPhase.change cb ((strDrop s 1) :: rem) add ca
    else if strStartsWith s "+" then
      match ph with
      | HPhase.trailCtx =>
        Except.error ⟨n, "addition line after context resumed"⟩
      | _ =>
        parseHunksGo rest (n + 1) HPhase.change cb rem ((strDrop s 1) :: add) ca
    else
      if rem.isEmpty && add.isEmpty then
        if cb.isEmpty && ca.isEmpty then
          parseHunksGo rest (n + 1) HPhase.leadCtx [] [] [] []
        else Except.error ⟨n, "hunk has no removed or added lines"⟩
      else
        match parseHunksGo rest (n + 1) HPhase.leadCtx [] [] [] [] with
        | Except.error e => Except.error e
        | Except.ok hs => Except.ok (finishHunk cb rem add ca :: hs)

/-- Parse the body lines of one update operation into its hunks. -/
def parseHunks (body : List String) (n : Nat) : Except ParseError (List Hunk) :=
  parseHunksGo body n HPhase.leadCtx [] [] [] []

/-- The operation currently being collected by the directive pass: none,
an add with its content lines so far (in reverse), or an update with its
hunk body lines so far (in reverse) and the body's first line number. -/
inductive PendingOp where
  | idle
  | add (path : String) (revBody : List String)
  | upd (path : String) (revBody : List String) (bodyStart : Nat)
deriving Repr, DecidableEq

/-- Close the operation being collected, parsing an update body into its
hunks; an update with no hunks is a parse error. -/
def pendingClose : PendingOp → Except ParseError (List FileOperation)
  | PendingOp.idle => Except.ok []
  | PendingOp.add p revBody =>
    Except.ok [FileOperation.addFile p (String.intercalate "\n" revBody.reverse)]
  | PendingOp.upd p revBody bodyStart =>
    match parseHunks revBody.reverse bodyStart with
    | Except.error e => Except.error e
    | Except.ok [] => Except.error ⟨bodyStart, "update with no hunks"⟩
    | Except.ok hs => Except.ok [FileOperation.updateFile p hs]

/-- Modelled from the spec: the single linear directive-driven pass over
the patch body.  Each directive line closes the operation being collected
and opens the next one; an add collects unprefixed content lines up to
the next directive, an update collects its hunk lines, a delete takes no
body; an unknown directive, or a body line with no open operation, is a
parse error naming the line. -/
def parseOpsGo : List String → Nat → PendingOp → List FileOperation →
    Except ParseError (List FileOperation)
  | [], _, pend, acc =>
    match pendingClose pend with
    | Except.error e => Except.error e
    | Except.ok closed => Except.ok (acc ++ closed)
  | l :: rest, n, pend, acc =>
    if isDirectiveLine l then
      match pendingClose pend with
      | Except.error e => Except.error e
      | Except.ok closed =>
        if strStartsWith l addTag then
          parseOpsGo rest (n + 1)
            (PendingOp.add (strDrop l addTag.length) []) (acc ++ closed)
        else if strStartsWith l updateTag then
          parseOpsGo rest (n + 1)
            (PendingOp.upd (strDrop l updateTag.length) [] (n + 1)) (acc ++ closed)
        else if strStartsWith l deleteTag then
          parseOpsGo rest (n + 1) PendingOp.idle
            (acc ++ closed ++ [FileOperation.deleteFile (strDrop l deleteTag.length)])
        else Except.error ⟨n, "unknown directive: " ++ l⟩
    else
      match pend with
      | PendingOp.idle =>
        Except.error ⟨n, "unexpected line outside operation: " ++ l⟩
      | PendingOp.add p rb =>
        parseOpsGo rest (n + 1) (PendingOp.add p (l :: rb)) acc
      | PendingOp.upd p rb m =>
        parseOpsGo rest (n + 1) (PendingOp.upd p (l :: rb) m) acc

/-- Parse the body lines between the envelope markers into the ordered
operation list. -/
def parseOps (ls : List String) (n : Nat) :
    Except ParseError (List FileOperation) :=
  parseOpsGo ls n PendingOp.idle []

/-- Whether every path in the list is distinct from the others. -/
def pathsUnique : List String → Bool
  | [] => true
  | p :: rest => !(rest.contains p) && pathsUnique rest

/-- Modelled from the spec: `parse` converts raw patch text into a
structured patch; missing envelope markers, unknown directives, malformed
hunks, an empty patch, and duplicate paths are parse errors. -/
def parsePatch (text : String) : Except ParseError Patch :=
  let rawLines := splitOnChar '\n' text
  let lines :=
    if rawLines.getLast? = some "" then rawLines.dropLast else rawLines
  match lines with
  | [] => Except.error ⟨1, "missing begin marker"⟩
  | first :: rest =>
    if first ≠ beginMarker then Except.error ⟨1, "missing begin marker"⟩
    else if rest.getLast? ≠ some endMarker then
      Except.error ⟨lines.length, "missing end marker"⟩
    else
      match parseOps rest.dropLast 2 with
      | Except.error e => Except.error e
      | Except.ok [] => Except.error ⟨2, "empty patch"⟩
      | Except.ok ops =>
        if pathsUnique (ops.map opPath) then Except.ok ⟨ops⟩
        else Except.error ⟨2, "duplicate path in patch"⟩

/-- Modelled from the spec: the parser run alongside an arbitrary
working-directory state.  The parser's only input is the patch text, so
the state is ignored; this definition makes the no-filesystem-access
property of parsing statable. -/
def parseInContext (_fs : List (String × String)) (text : String) :
    Except ParseError Patch :=
  parsePatch text

/-! ## Apply engine -/

/-- The working directory modelled as an association list from relative
path to file content. -/
abbrev FS := List (String × String)

/-- Content of the file at `p`, when present. -/
def fsLookup (fs : FS) (p : String) : Option String :=
  (fs.find? (fun e => e.1 == p)).map Prod.snd

/-- Whether a file exists at `p`. -/
def fsExists (fs : FS) (p : String) : Bool :=
  (fsLookup fs p).isSome

/-- Write (create or replace) the file at `p`. -/
def fsWrite (fs : FS) (p c : String) : FS :=
  (p, c) :: fs.filter (fun e => e.1 != p)

/-- Remove the file at `p`. -/
def fsRemove (fs : FS) (p : String) : FS :=
  fs.filter (fun e => e.1 != p)

/-- Split file content into lines. -/
def contentLines (c : String) : List String := splitOnChar '\n' c

/-- Modelled from the spec: per-operation status in an `ApplyResult`. -/
inductive ApplyStatus where
  | success
  | failed (reason : String)
deriving Repr, DecidableEq

/-- Modelled from the spec: the per-operation result record. -/
structure ApplyResult where
  op : FileOperation
  status : ApplyStatus
deriving Repr, DecidableEq

/-- Modelled from the spec: the whole-patch outcome record. -/
structure ApplyOutcome where
  committed : Bool
  results : List ApplyResult
deriving Repr, DecidableEq

/-- A mutation computed during validation, to be performed at commit
time: write full new content, or remove a file. -/
inductive CommitAction where
  | write (path : String) (content : String)
  | remove (path : String)
deriving Repr, DecidableEq

/-- Render a matcher failure as a human-readable reason. -/
def renderMatchErr : MatchErr → String
  | MatchErr.contextNotFound k pth =>
    "context not found for hunk " ++ toString k ++ " in " ++ pth
  | MatchErr.ambiguousMatch k cs =>
    "ambiguous match for hunk " ++ toString k ++ " at " ++ toString cs

/-- Modelled from the spec: validate one operation against the current
on-disk state without mutating anything.  A path escaping the working
directory is rejected first, unconditionally and before any filesystem
lookup; then existence preconditions; for an update every hunk is matched
in order and the fully rewritten content is computed. -/
def validateOp (fs : FS) : FileOperation → Except String CommitAction
  | FileOperation.addFile p c =>
    if !isPathSafe p then Except.error ("path escapes working directory: " ++ p)
    else if fsExists fs p then Except.error ("file already exists: " ++ p)
    else Except.ok (CommitAction.write p c)
  | FileOperation.deleteFile p =>
    if !isPathSafe p then Except.error ("path escapes working directory: " ++ p)
    else if !fsExists fs p then Except.error ("file does not exist: " ++ p)
    else Except.ok (CommitAction.remove p)
  | FileOperation.updateFile p hunks =>
    if !isPathSafe p then Except.error ("path escapes working directory: " ++ p)
    else
      match fsLookup fs p with
      | none => Except.error ("file does not exist: " ++ p)
      | some content =>
        match matchHunks (contentLines content) hunks 0 0 p with
        | Except.error e => Except.error (renderMatchErr e)
        | Except.ok ranges =>
          Except.ok (CommitAction.write p
            (String.intercalate "\n"
              (rewriteAll (contentLines content) 0 hunks ranges)))

/-- Modelled from the spec: validate every operation of the patch, in
order, against the unmodified on-disk state; the first failure aborts
with its index and reason. -/
def validateOps (fs : FS) : List FileOperation → Nat →
    Except (Nat × String) (List CommitAction)
  | [], _ => Except.ok []
  | op :: rest, n =>
    match validateOp fs op with
    | Except.error e => Except.error (n, e)
    | Except.ok a =>
      match validateOps fs rest (n + 1) with
      | Except.error e2 => Except.error e2
      | Except.ok as => Except.ok (a :: as)

/-- Perform the validated mutations in their original order. -/
def commitActs (fs : FS) (acts : List CommitAction) : FS :=
  acts.foldl
    (fun f a =>
      match a with
      | CommitAction.write p c => fsWrite f p c
      | CommitAction.remove p => fsRemove f p)
    fs

/-- Modelled from the spec: the per-operation results of an aborted
apply: operations before the failing one validated, the failing one
carries its reason, the rest are marked aborted. -/
def abortedResults : List FileOperation → Nat → String → List ApplyResult
  | [], _, _ => []
  | op :: rest, 0, r =>
    ⟨op, ApplyStatus.failed r⟩ ::
      rest.map (fun o => ⟨o, ApplyStatus.failed "aborted: prior validation error"⟩)
  | op :: rest, Nat.succ k, r =>
    ⟨op, ApplyStatus.success⟩ :: abortedResults rest k r

/-- Modelled from the spec: the two-phase, all-or-nothing apply engine.
Validation of every operation runs first against the unmodified state;
any failure aborts the whole patch with the filesystem untouched; only a
fully validated patch enters the commit phase. -/
def applyPatch (p : Patch) (fs : FS) : ApplyOutcome × FS :=
  match validateOps fs p.ops 0 with
  | Except.error (n, reason) =>
    (⟨false, abortedResults p.ops n reason⟩, fs)
  | Except.ok acts =>
    (⟨true, p.ops.map (fun o => ⟨o, ApplyStatus.success⟩)⟩, commitActs fs acts)

/-- Modelled from the spec: the result reporter, one line per operation
and a final line for the overall outcome. -/
def renderOutcome (o : ApplyOutcome) : String :=
  String.intercalate "\n"
    ((o.results.map
        (fun r =>
          opPath r.op ++ ": " ++
            match r.status with
            | ApplyStatus.success => "ok"
            | ApplyStatus.failed reason => "failed: " ++ reason)) ++
      [if o.committed then "Done!" else "Patch not applied"])

/-! ## Apply-patch tool adapter (from custom_files/apply_patch_tool.py) -/

/-- The incoming tool message as the adapter reads it: the text of its
first content item and its channel. -/
structure ToolMessage where
  text : String
  channel : Option String
deriving Repr, DecidableEq

/-- The response message built by `make_response`: authored by the tool,
addressed to the assistant, carrying one text content item. -/
structure ToolResponse where
  authorRole : String
  authorName : String
  recipient : String
  text : String
  channel : Option String
deriving Repr, DecidableEq

/-- The fixed tool name returned by `get_tool_name`. -/
def getToolName : String := "apply_patch"

/-- The adapter's `_make_response`/`make_response` pair: wrap output text
in a tool-authored message on the given channel. -/
def makeResponse (output : String) (channel : Option String) : ToolResponse :=
  { authorRole := "tool", authorName := getToolName,
    recipient := "assistant", text := output, channel := channel }

/-- A parsed JSON object restricted to string values, the shape the
envelope unwrapping relies on; the adapter's JSON library is passed in as
a parameter of this type. -/
abbrev JsonParse := String → Except String (List (String × String))

/-- The engine boundary as the adapter sees it: raw patch text in,
summary text out, with a raised exception modelled as `Except.error`. -/
abbrev Engine := String → Except String String

/-- Python's `dict.popitem`: the last inserted key/value pair, `none` on
an empty dictionary (where Python raises `KeyError`). -/
def popitem (d : List (String × String)) : Option (String × String) :=
  d.getLast?

/-- The envelope-unwrapping step of `_process`: text starting with a
brace is parsed as JSON and replaced by the value popped from the
resulting dictionary; a parse failure or empty dictionary becomes the
JSON error text; other text passes through unchanged. -/
def unwrapPatchText (jp : JsonParse) (text : String) : Except String String :=
  if strStartsWith text "\x7b" then
    match jp text with
    | Except.error e => Except.error ("Error parsing JSON: " ++ e)
    | Except.ok d =>
      match popitem d with
      | none => Except.error ("Error parsing JSON: dictionary is empty")
      | some kv => Except.ok kv.2
  else Except.ok text

/-- The engine-invocation step of `_process`: a summary is forwarded as
is, a raised error becomes the apply error text. -/
def runEngine (eng : Engine) (ptext : String) : String :=
  match eng ptext with
  | Except.ok result => result
  | Except.error e => "Error applying patch: " ++ e

/-- The adapter's `_process`: unwrap a possible JSON envelope, run the
engine on the raw patch text, and always yield one response message on
the incoming message's channel. -/
def processMessage (jp : JsonParse) (eng : Engine) (m : ToolMessage) :
    ToolResponse :=
  match unwrapPatchText jp m.text with
  | Except.error emsg => makeResponse emsg m.channel
  | Except.ok ptext => makeResponse (runEngine eng ptext) m.channel

/-! ## Google search backend (from custom_files/google_backend.py) -/

/-- The query parameters `GoogleBackend.search` sends to the Google
Custom Search API. -/
structure GoogleParams where
  key : String
  cx : String
  q : String
  num : Int
deriving Repr, DecidableEq

/-- The parameter dictionary built by `search`: the requested result
count is capped at Google's maximum of 10. -/
def googleSearchParams (apiKey cx query : String) (topn : Int) : GoogleParams :=
  { key := apiKey, cx := cx, q := query, num := min topn 10 }

/-! ## Terminal chat client history handling (from gpt-oss-chat.py) -/

/-- A Python value as far as the chat client's history items need: JSON
ish objects, arrays, strings and numbers. -/
inductive PyVal where
  | str (s : String)
  | num (n : Int)
  | arr (elems : List PyVal)
  | obj (fields : List (String × PyVal))

/-- The user-message record the run loop appends to
`conversation_history` before sending. -/
def userMessage (text : String) : PyVal :=
  PyVal.obj
    [("type", PyVal.str "message"), ("role", PyVal.str "user"),
     ("content", PyVal.arr
        [PyVal.obj [("type", PyVal.str "input_text"), ("text", PyVal.str text)]])]

/-- The `output` field of a response dictionary, defaulting to the empty
list, as `display_response` reads it. -/
def respOutput (resp : List (String × PyVal)) : List PyVal :=
  match (resp.find? (fun e => e.1 == "output")).map Prod.snd with
  | some (PyVal.arr l) => l
  | _ => []

/-- One turn of the run loop's history handling: append the user message;
if `send_message` returned a truthy response, extend the history with the
response's output items, otherwise pop the user message back off. -/
def chatTurnHistory (history : List PyVal) (userInput : String)
    (resp : Option (List (String × PyVal))) : List PyVal :=
  let h := history ++ [userMessage userInput]
  match resp with
  | none => h.dropLast
  | some d => if d.isEmpty then h.dropLast else h ++ respOutput d

/-! ## Theorems -/

/-- C1: for every valid patch and working directory, `applyPatch` either
fully commits every operation (performing exactly the validated commit
actions) or leaves the working directory byte-identical to its state
before the call; in particular, when any operation fails validation the
filesystem is returned untouched. -/
theorem applyPatch_all_or_nothing (p : Patch) (fs : FS) :
    ((applyPatch p fs).1.committed = false ∧ (applyPatch p fs).2 = fs)
    ∨ ((applyPatch p fs).1.committed = true ∧
        ∃ acts, validateOps fs p.ops 0 = Except.ok acts ∧
          (applyPatch p fs).2 = commitActs fs acts) := by
  unfold applyPatch
  cases hv : validateOps fs p.ops 0 with
  | error e =>
    cases e with
    | mk n reason => left; constructor <;> rfl
  | ok acts => right; exact ⟨rfl, acts, rfl, rfl⟩

/-- C2: for every JSON library, engine behaviour and incoming message,
the adapter's `processMessage` yields a response message carrying some
text on the incoming channel; every unwrap or apply failure is converted
into error text and none escapes. -/
theorem process_always_responds (jp : JsonParse) (eng : Engine)
    (m : ToolMessage) :
    ∃ s : String, processMessage jp eng m = makeResponse s m.channel := by
  cases h : unwrapPatchText jp m.text with
  | error e => exact ⟨e, by unfold processMessage; rw [h]⟩
  | ok t => exact ⟨runEngine eng t, by unfold processMessage; rw [h]⟩

/-- C3: a message whose text is a single-key JSON envelope is unwrapped
and the engine is called on the envelope's value, the raw patch text,
never on the enveloped form; a message whose text is raw patch text (not
starting with a brace) reaches the engine unchanged. -/
theorem envelope_unwrapped (jp : JsonParse) (eng : Engine) (m : ToolMessage) :
    (∀ k v, strStartsWith m.text "\x7b" = true →
        jp m.text = Except.ok [(k, v)] →
        processMessage jp eng m = makeResponse (runEngine eng v) m.channel)
    ∧ (strStartsWith m.text "\x7b" = false →
        processMessage jp eng m = makeResponse (runEngine eng m.text) m.channel) := by
  constructor
  · intro k v hbrace hjson
    unfold processMessage unwrapPatchText
    rw [hbrace, hjson]
    rfl
  · intro hbrace
    unfold processMessage unwrapPatchText
    rw [hbrace]
    rfl

theorem envelope_unwrapped_witness :
    processMessage (fun _ => Except.ok [("input", "RAW PATCH")])
        (fun s => Except.ok s) ⟨"\x7b\"input\": \"RAW PATCH\"\x7d", none⟩
      = makeResponse
          (runEngine (fun s => Except.ok s) "RAW PATCH") none
    ∧ processMessage (fun _ => Except.error "not json")
        (fun s => Except.ok s)
        ⟨"*** Begin Patch\n*** End Patch", some "commentary"⟩
      = makeResponse
          (runEngine (fun s => Except.ok s) "*** Begin Patch\n*** End Patch")
          (some "commentary") := by
  constructor
  · exact (envelope_unwrapped (fun _ => Except.ok [("input", "RAW PATCH")])
      (fun s => Except.ok s) ⟨"\x7b\"input\": \"RAW PATCH\"\x7d", none⟩).1
      "input" "RAW PATCH" (by decide) rfl
  · exact (envelope_unwrapped (fun _ => Except.error "not json")
      (fun s => Except.ok s)
      ⟨"*** Begin Patch\n*** End Patch", some "commentary"⟩).2 (by decide)

/-- C4: whenever the engine returns a summary without raising, the
response the adapter yields carries exactly that summary as its text,
verbatim. -/
theorem summary_forwarded_verbatim (jp : JsonParse) (eng : Engine)
    (m : ToolMessage) (ptext s : String)
    (hu : unwrapPatchText jp m.text = Except.ok ptext)
    (he : eng ptext = Except.ok s) :
    processMessage jp eng m = makeResponse s m.channel
    ∧ (processMessage jp eng m).text = s := by
  have h1 : processMessage jp eng m =
      makeResponse (runEngine eng ptext) m.channel := by
    unfold processMessage
    rw [hu]
  have h2 : runEngine eng ptext = s := by
    unfold runEngine
    rw [he]
  rw [h1, h2]
  exact ⟨rfl, rfl⟩

theorem summary_forwarded_witness :
    processMessage (fun _ => Except.error "unused")
        (fun _ => Except.ok "Done!")
        ⟨"*** Begin Patch\n*** End Patch", none⟩
      = makeResponse "Done!" none :=
  (summary_forwarded_verbatim (fun _ => Except.error "unused")
      (fun _ => Except.ok "Done!") ⟨"*** Begin Patch\n*** End Patch", none⟩
      "*** Begin Patch\n*** End Patch" "Done!" (by decide) rfl).1

/-- C9: for every query and integer result count, the `num` parameter
sent to the Google Custom Search API equals `min topn 10` and hence
never exceeds 10. -/
theorem google_num_capped (apiKey cx query : String) (topn : Int) :
    (googleSearchParams apiKey cx query topn).num = min topn 10 ∧
    (googleSearchParams apiKey cx query topn).num ≤ 10 :=
  ⟨rfl, min_le_right _ _⟩

theorem findMatches_start_le (fl probe : List String) (start i : Nat)
    (h : i ∈ findMatches fl probe start) : start ≤ i := by
  unfold findMatches at h
  have h2 := (List.mem_filter.mp h).2
  simp only [Bool.and_eq_true, decide_eq_true_eq] at h2
  exact h2.1

theorem locate_ok_bounds (fl : List String) (hk : Hunk) (start idx : Nat)
    (pth : String) (i j : Nat)
    (hok : locate fl hk start idx pth = Except.ok (i, j)) :
    start ≤ i ∧ j = i + (hunkProbe hk).length := by
  unfold locate at hok
  split at hok
  · rename_i i2 heq
    simp only [Except.ok.injEq, Prod.mk.injEq] at hok
    obtain ⟨rfl, rfl⟩ := hok
    refine ⟨?_, rfl⟩
    apply findMatches_start_le fl (hunkProbe hk) start
    rw [heq]
    exact List.mem_singleton.mpr rfl
  · split at hok
    · rename_i heq0 i2 heq
      simp only [Except.ok.injEq, Prod.mk.injEq] at hok
      obtain ⟨rfl, rfl⟩ := hok
      refine ⟨?_, rfl⟩
      apply findMatches_start_le (List.map normLine fl)
        (List.map normLine (hunkProbe hk)) start
      show _ ∈ findMatchesNorm fl (hunkProbe hk) start
      rw [heq]
      exact List.mem_singleton.mpr rfl
    · exact Except.noConfusion hok
    · exact Except.noConfusion hok
  · exact Except.noConfusion hok

theorem validateOps_ok_mem (fs : FS) (ops : List FileOperation) (n : Nat)
    (acts : List CommitAction) (h : validateOps fs ops n = Except.ok acts) :
    ∀ op ∈ ops, ∃ a, validateOp fs op = Except.ok a := by
  induction ops generalizing n acts with
  | nil => intro op hop; exact absurd hop (List.not_mem_nil op)
  | cons o rest ih =>
    intro op hop
    unfold validateOps at h
    cases hv : validateOp fs o with
    | error e => rw [hv] at h; exact Except.noConfusion h
    | ok a =>
      rw [hv] at h
      cases hr : validateOps fs rest (n + 1) with
      | error e2 => rw [hr] at h; exact Except.noConfusion h
      | ok as =>
        rcases List.mem_cons.mp hop with rfl | hop2
        · exact ⟨a, hv⟩
        · exact ih (n + 1) as hr op hop2

theorem applyPatch_abort (P : Patch) (fs : FS) (op : FileOperation)
    (hmem : op ∈ P.ops) (hfail : ∀ a, validateOp fs op ≠ Except.ok a) :
    (applyPatch P fs).1.committed = false ∧ (applyPatch P fs).2 = fs := by
  unfold applyPatch
  cases hv : validateOps fs P.ops 0 with
  | error e => cases e; exact ⟨rfl, rfl⟩
  | ok acts =>
    obtain ⟨a, ha⟩ := validateOps_ok_mem fs P.ops 0 acts hv op hmem
    exact absurd ha (hfail a)

/-- C5: an operation whose path is absolute or escapes the working
directory is rejected during validation with a path-escape precondition
failure that does not depend on the filesystem state at all, and any
patch containing such an operation commits nothing and leaves the
working directory unchanged. -/
theorem path_escape_rejected (op : FileOperation)
    (hbad : isPathSafe (opPath op) = false) :
    (∀ fs : FS, validateOp fs op =
        Except.error ("path escapes working directory: " ++ opPath op))
    ∧ ∀ (P : Patch) (fs : FS), op ∈ P.ops →
        (applyPatch P fs).1.committed = false ∧ (applyPatch P fs).2 = fs := by
  have hval : ∀ fs : FS, validateOp fs op =
      Except.error ("path escapes working directory: " ++ opPath op) := by
    intro fs
    cases op with
    | addFile p c => simp only [opPath] at hbad; simp [validateOp, opPath, hbad]
    | updateFile p hs =>
      simp only [opPath] at hbad; simp [validateOp, opPath, hbad]
    | deleteFile p => simp only [opPath] at hbad; simp [validateOp, opPath, hbad]
  refine ⟨hval, ?_⟩
  intro P fs hmem
  apply applyPatch_abort P fs op hmem
  intro a ha
  rw [hval fs] at ha
  exact Except.noConfusion ha

theorem path_escape_rejected_witness :
    (applyPatch ⟨[FileOperation.deleteFile "../../etc/passwd"]⟩
        [("a.txt", "x")]).1.committed = false
    ∧ (applyPatch ⟨[FileOperation.deleteFile "../../etc/passwd"]⟩
        [("a.txt", "x")]).2 = [("a.txt", "x")] :=
  (path_escape_rejected (FileOperation.deleteFile "../../etc/passwd")
      (by decide)).2
    ⟨[FileOperation.deleteFile "../../etc/passwd"]⟩ [("a.txt", "x")] (by decide)

/-- C6: a hunk whose probe (leading context followed by removed lines)
occurs at exactly one candidate position from the search start onward is
applied at that position; two or more candidates in the exact pass, or in
the normalised pass when the exact pass found none, fail with
`ambiguousMatch`; and a patch whose update hits an ambiguous match
commits nothing and leaves the working directory unchanged. -/
theorem hunk_unique_or_ambiguous (fl : List String) (hk : Hunk)
    (start idx : Nat) (pth : String) :
    (∀ i, findMatches fl (hunkProbe hk) start = [i] →
        locate fl hk start idx pth =
          Except.ok (i, i + (hunkProbe hk).length))
    ∧ (∀ c1 c2 t, findMatches fl (hunkProbe hk) start = c1 :: c2 :: t →
        locate fl hk start idx pth =
          Except.error (MatchErr.ambiguousMatch idx (c1 :: c2 :: t)))
    ∧ (∀ c1 c2 t, findMatches fl (hunkProbe hk) start = [] →
        findMatchesNorm fl (hunkProbe hk) start = c1 :: c2 :: t →
        locate fl hk start idx pth =
          Except.error (MatchErr.ambiguousMatch idx (c1 :: c2 :: t)))
    ∧ ∀ (P : Patch) (fs : FS) (content : String) (hunks : List Hunk),
        FileOperation.updateFile pth hunks ∈ P.ops →
        isPathSafe pth = true →
        fsLookup fs pth = some content →
        (∃ k cs, matchHunks (contentLines content) hunks 0 0 pth =
            Except.error (MatchErr.ambiguousMatch k cs)) →
        (applyPatch P fs).1.committed = false ∧ (applyPatch P fs).2 = fs := by
  refine ⟨?_, ?_, ?_, ?_⟩
  · intro i h; unfold locate; rw [h]
  · intro c1 c2 t h; unfold locate; rw [h]
  · intro c1 c2 t h1 h2; unfold locate; rw [h1, h2]
  · intro P fs content hunks hmem hsafe hlook hamb
    obtain ⟨k, cs, hmatch⟩ := hamb
    apply applyPatch_abort P fs _ hmem
    intro a ha
    rw [show validateOp fs (FileOperation.updateFile pth hunks) =
          Except.error (renderMatchErr (MatchErr.ambiguousMatch k cs)) by
        simp [validateOp, hsafe, hlook, hmatch]] at ha
    exact Except.noConfusion ha

theorem hunk_unique_or_ambiguous_witness :
    locate ["x", "a", "b"] ⟨["a"], ["b"], ["B"], []⟩ 0 0 "a.txt" =
      Except.ok (1, 3)
    ∧ locate ["a", "b", "a", "b"] ⟨["a"], ["b"], ["B"], []⟩ 0 0 "a.txt" =
        Except.error (MatchErr.ambiguousMatch 0 [0, 2])
    ∧ locate ["a ", "b", "a  ", "b"] ⟨["a"], ["b"], ["B"], []⟩ 0 0 "a.txt" =
        Except.error (MatchErr.ambiguousMatch 0 [0, 2])
    ∧ ((applyPatch ⟨[FileOperation.updateFile "a.txt" [⟨[], ["ab"], ["X"], []⟩]]⟩
          [("a.txt", "ab\nab")]).1.committed = false
        ∧ (applyPatch ⟨[FileOperation.updateFile "a.txt" [⟨[], ["ab"], ["X"], []⟩]]⟩
            [("a.txt", "ab\nab")]).2 = [("a.txt", "ab\nab")]) := by
  refine ⟨?_, ?_, ?_, ?_⟩
  · exact (hunk_unique_or_ambiguous ["x", "a", "b"] ⟨["a"], ["b"], ["B"], []⟩
      0 0 "a.txt").1 1 (by decide)
  · exact (hunk_unique_or_ambiguous ["a", "b", "a", "b"]
      ⟨["a"], ["b"], ["B"], []⟩ 0 0 "a.txt").2.1 0 2 [] (by decide)
  · exact (hunk_unique_or_ambiguous ["a ", "b", "a  ", "b"]
      ⟨["a"], ["b"], ["B"], []⟩ 0 0 "a.txt").2.2.1 0 2 [] (by decide) (by decide)
  · exact (hunk_unique_or_ambiguous [] ⟨[], [], [], []⟩ 0 0 "a.txt").2.2.2
      ⟨[FileOperation.updateFile "a.txt" [⟨[], ["ab"], ["X"], []⟩]]⟩
      [("a.txt", "ab\nab")] "ab\nab" [⟨[], ["ab"], ["X"], []⟩]
      (by decide) (by decide) (by decide) ⟨0, [0, 1], by decide⟩

/-- C8: the hunks of one update are matched in order, each subsequent
hunk's search start being the end of the previous hunk's matched range,
so the matched ranges are forward-only and non-overlapping. -/
theorem hunks_matched_forward (fl : List String) (hunks : List Hunk)
    (start idx : Nat) (pth : String) (ranges : List (Nat × Nat))
    (h : matchHunks fl hunks start idx pth = Except.ok ranges) :
    rangesForwardFrom start ranges := by
  induction hunks generalizing start idx ranges with
  | nil =>
    unfold matchHunks at h
    injection h with h2
    subst h2
    trivial
  | cons hk rest ih =>
    unfold matchHunks at h
    cases hl : locate fl hk start idx pth with
    | error e => rw [hl] at h; exact Except.noConfusion h
    | ok ij =>
      obtain ⟨i, j⟩ := ij
      rw [hl] at h
      dsimp only at h
      cases hr : matchHunks fl rest j (idx + 1) pth with
      | error e => rw [hr] at h; exact Except.noConfusion h
      | ok rs =>
        rw [hr] at h
        injection h with h2
        subst h2
        obtain ⟨hs, he⟩ := locate_ok_bounds fl hk start idx pth i j hl
        exact ⟨hs, by omega, ih j (idx + 1) rs hr⟩

theorem hunks_matched_forward_witness :
    rangesForwardFrom 0 [(0, 2), (2, 3)] :=
  hunks_matched_forward ["a", "b", "c"]
    [⟨["a"], ["b"], ["B"], []⟩, ⟨[], ["c"], ["C"], []⟩] 0 0 "f"
    [(0, 2), (2, 3)] (by decide)

/-- C7: parsing is total and pure: two parses of the same text yield
structurally equal patches, and the parse result is independent of the
working-directory state, which parsing never reads. -/
theorem parse_total_pure (text : String) (fs1 fs2 : FS) (p1 p2 : Patch)
    (h1 : parsePatch text = Except.ok p1)
    (h2 : parsePatch text = Except.ok p2) :
    p1 = p2 ∧ parseInContext fs1 text = parseInContext fs2 text := by
  have h3 := h1.symm.trans h2
  injection h3 with h4
  exact ⟨h4, rfl⟩

theorem parse_total_pure_witness :
    (⟨[FileOperation.addFile "notes.txt" "hello"]⟩ : Patch) =
      ⟨[FileOperation.addFile "notes.txt" "hello"]⟩
    ∧ parseInContext []
        "*** Begin Patch\n*** Add File: notes.txt\nhello\n*** End Patch\n" =
      parseInContext [("a.txt", "x")]
        "*** Begin Patch\n*** Add File: notes.txt\nhello\n*** End Patch\n" :=
  parse_total_pure
    "*** Begin Patch\n*** Add File: notes.txt\nhello\n*** End Patch\n"
    [] [("a.txt", "x")]
    ⟨[FileOperation.addFile "notes.txt" "hello"]⟩
    ⟨[FileOperation.addFile "notes.txt" "hello"]⟩ (by decide) (by decide)

/-- C10: whenever `send_message` returns no response, the run loop pops
the user message it had just appended, so the conversation history after
the failed turn equals its value before the turn. -/
theorem failed_turn_restores_history (history : List PyVal)
    (userInput : String) :
    chatTurnHistory history userInput none = history := by
  unfold chatTurnHistory
  exact List.dropLast_concat

end Hyperforge
